import Mathlib

/-!
Shallow embedding of the simulation core of `src/src/main.rs` (Ludum 53 game).

Numeric model: Rust `f32` values are modelled as exact rationals (`ℚ`);
the constant `f32::PI` is modelled by `float_pi`, the exact rational value
of the 32-bit float `f32::PI`.  Transcendental library functions that the
code calls (`cos`/`sin` inside `vec2::rotate`, the vector length inside
`normalize_or_zero`) are not definable on `ℚ`; they are passed in as an
abstract function table `RealFns`, so every game-logic definition below is
an exact transcription of the source with those functions left symbolic.
-/

namespace Ludum53

/-- Exact rational value of the 32-bit float constant `f32::PI`
(bit pattern 0x40490FDB, value 13176795 / 2^22). -/
def float_pi : ℚ := 13176795 / 4194304

/-- Abstract table of the real-valued library functions the code calls:
`cos`/`sin` (used by `vec2::rotate`) and the euclidean vector length
(used by `vec2::normalize_or_zero`). -/
structure RealFns where
  cos : ℚ → ℚ
  sin : ℚ → ℚ
  len : ℚ × ℚ → ℚ

/-- `vec2::rotate` from the batbox math library:
`(x, y).rotate(a) = (x cos a - y sin a, x sin a + y cos a)`. -/
def rotateVec (m : RealFns) (v : ℚ × ℚ) (a : ℚ) : ℚ × ℚ :=
  (v.1 * m.cos a - v.2 * m.sin a, v.1 * m.sin a + v.2 * m.cos a)

/-- `vec2::normalize_or_zero`: `v / |v|`, or zero when the length is zero. -/
def normalize_or_zero (m : RealFns) (v : ℚ × ℚ) : ℚ × ℚ :=
  if m.len v = 0 then (0, 0) else (v.1 / m.len v, v.2 / m.len v)

/-- `f32::to_radians`: multiply by `PI / 180`. -/
def to_radians (x : ℚ) : ℚ := x * (float_pi / 180)

/-- The fields of `struct Config` that the simulation core reads. -/
structure Config where
  gravity : ℚ
  throw_speed : ℚ
  throw_angle : ℚ
  item_scale : ℚ
  hand_radius : ℚ
  item_max_w : ℚ
  throw_target_height : ℚ
  earth_radius : ℚ
  ride_speed : ℚ
  road_width : ℚ
  mailbox_size : ℚ
  distance_between_mailboxes : ℚ
deriving DecidableEq

/-- A texture handle: an id plus the pixel size the code reads via
`texture.size()` (textures are shared read-only; the id models which
texture is referenced). -/
structure Texture where
  id : ℕ
  size : ℚ × ℚ
deriving DecidableEq

/-- `vec2::aspect` from batbox: `x / y`. -/
def Texture.aspect (t : Texture) : ℚ := t.size.1 / t.size.2

/-- `struct Item` from `main.rs`. -/
structure Item where
  texture : Texture
  pos : ℚ × ℚ
  vel : ℚ × ℚ
  rot : ℚ
  w : ℚ
  half_size : ℚ × ℚ
deriving DecidableEq

/-- `Item::new(texture, scale)`.  The random initial rotation
(`thread_rng().gen_range(0.0..2*PI)`) is passed in as `rotSample`. -/
def Item.new (texture : Texture) (scale : ℚ) (rotSample : ℚ) : Item where
  texture := texture
  pos := (0, 0)
  vel := (0, 0)
  rot := rotSample
  w := 0
  half_size := (texture.aspect * scale, 1 * scale)

/-- `struct Mailbox` from `main.rs`. -/
structure Mailbox where
  x : ℚ
  latitude : ℚ
deriving DecidableEq

/-- `Aabb2<f32>` (axis-aligned box) from batbox, by its min/max corners. -/
structure Aabb where
  min : ℚ × ℚ
  max : ℚ × ℚ
deriving DecidableEq

/-- `Aabb2::extend_uniform`. -/
def Aabb.extend_uniform (b : Aabb) (r : ℚ) : Aabb :=
  ⟨(b.min.1 - r, b.min.2 - r), (b.max.1 + r, b.max.2 + r)⟩

/-- `Aabb2::contains` (closed box membership). -/
def Aabb.contains (b : Aabb) (p : ℚ × ℚ) : Bool :=
  decide (b.min.1 ≤ p.1) && decide (p.1 ≤ b.max.1) &&
  decide (b.min.2 ≤ p.2) && decide (p.2 ≤ b.max.2)

/-- `draw3d::Vertex`: a 3D position and a texture coordinate. -/
structure Vertex where
  a_pos : ℚ × ℚ × ℚ
  a_uv : ℚ × ℚ
deriving DecidableEq

/-- The simulation state of `struct Game` (the fields the simulation core
reads or writes; rendering-substrate handles are omitted, the shared
`envelope` asset texture is kept because `handle_event` reads it, and the
static `road_mesh` vertex buffer is kept as the list of its vertices). -/
structure GameState where
  items : List Item
  holding : Option Item
  mailboxes : List Mailbox
  my_latitude : ℚ
  bag_position : Aabb
  envelope : Texture
  road_mesh : List Vertex
deriving DecidableEq

/-! ### `Game::update` (`main.rs` lines 213–240) -/

/-- The per-item physics integration, the body of the
`for item in &mut self.items` loop in `Game::update`:
`vel.y -= gravity*dt; pos += vel*dt; rot += w*dt` — the position update
uses the already-updated velocity. -/
def stepItem (gravity dt : ℚ) (it : Item) : Item :=
  let vel : ℚ × ℚ := (it.vel.1, it.vel.2 - gravity * dt)
  { it with
    vel := vel
    pos := (it.pos.1 + vel.1 * dt, it.pos.2 + vel.2 * dt)
    rot := it.rot + it.w * dt }

/-- The lateral offset magnitude of a spawned mailbox:
`road_width + mailbox_size / 2`. -/
def mailboxOffset (cfg : Config) : ℚ := cfg.road_width + cfg.mailbox_size / 2

/-- `config.distance_between_mailboxes.to_radians()`. -/
def distRad (cfg : Config) : ℚ := to_radians cfg.distance_between_mailboxes

/-- The `while` condition of the spawn loop:
`self.mailboxes.last().map_or(true, |mb| mb.latitude < my_latitude + PI)`. -/
def spawnCond (myLat : ℚ) (ms : List Mailbox) : Bool :=
  (ms.getLast?).elim true fun mb => decide (mb.latitude < myLat + float_pi)

/-- The `last_latitude` read at the top of the spawn-loop body:
`self.mailboxes.last().map_or(self.my_latitude, |mb| mb.latitude)`. -/
def seedOf (myLat : ℚ) (ms : List Mailbox) : ℚ :=
  (ms.getLast?).elim myLat Mailbox.latitude

/-- One body execution of the spawn loop: read `last_latitude`, then
`for x in [-1, 1]` push a mailbox at
`x * (road_width + mailbox_size/2)` / `last_latitude + dist.to_radians()`. -/
def spawnStep (cfg : Config) (myLat : ℚ) (ms : List Mailbox) : List Mailbox :=
  ms ++ [ ⟨-1 * mailboxOffset cfg, seedOf myLat ms + distRad cfg⟩,
          ⟨ 1 * mailboxOffset cfg, seedOf myLat ms + distRad cfg⟩ ]

/-- The spawn `while` loop of `Game::update`, embedded with explicit fuel
(the Rust loop is unbounded; termination for positive spacing is proved
separately). -/
def spawnLoop (cfg : Config) (myLat : ℚ) : ℕ → List Mailbox → List Mailbox
  | 0, ms => ms
  | fuel + 1, ms =>
    if spawnCond myLat ms then spawnLoop cfg myLat fuel (spawnStep cfg myLat ms)
    else ms

/-- The whole mailbox maintenance step of `Game::update`: the `retain`
(keep `latitude > my_latitude - PI`) followed by the spawn loop. -/
def mailboxTick (cfg : Config) (myLat : ℚ) (fuel : ℕ) (ms : List Mailbox) :
    List Mailbox :=
  spawnLoop cfg myLat fuel
    (ms.filter fun mb => decide (myLat - float_pi < mb.latitude))

/-- `Game::update(delta_time)`: integrate every flying item, advance
`my_latitude` by `ride_speed * dt`, then run the mailbox tick. -/
def update (cfg : Config) (fuel : ℕ) (dt : ℚ) (s : GameState) : GameState :=
  let items := s.items.map (stepItem cfg.gravity dt)
  let myLat := s.my_latitude + cfg.ride_speed * dt
  { s with
    items := items
    my_latitude := myLat
    mailboxes := mailboxTick cfg myLat fuel s.mailboxes }

/-! ### `Game::handle_event` (`main.rs` lines 158–212) -/

/-- The hit test of the `rposition` closure in the `MouseDown` arm:
apply the inverse of the transform
`Quad::unit().scale(half_size + hand_radius).rotate(rot).translate(pos)`
to the pointer position and test containment in
`Aabb2::ZERO.extend_uniform(1.0) = [-1,1]²`.  The inverse is
scale⁻¹ ∘ rotate(-rot) ∘ translate(-pos). -/
def itemHit (m : RealFns) (hand_radius : ℚ) (p : ℚ × ℚ) (it : Item) : Bool :=
  let d : ℚ × ℚ := (p.1 - it.pos.1, p.2 - it.pos.2)
  let r := rotateVec m d (-it.rot)
  let sx := it.half_size.1 + hand_radius
  let sy := it.half_size.2 + hand_radius
  let lx := r.1 / sx
  let ly := r.2 / sy
  decide (-1 ≤ lx) && decide (lx ≤ 1) && decide (-1 ≤ ly) && decide (ly ≤ 1)

/-- `Iterator::rposition`: the index (from the front) of the LAST element
satisfying the predicate. -/
def rposition (p : α → Bool) : List α → Option ℕ
  | [] => none
  | a :: as =>
    match rposition p as with
    | some i => some (i + 1)
    | none => if p a then some 0 else none

/-- The `MouseDown { button: Left }` arm of `Game::handle_event`:
`pos` is the pointer position already converted to the overlay plane
(`camera.as_2d().screen_to_world`, which lives in the out-of-scope camera
module).  `rotSample` is the random number drawn inside `Item::new` when a
fresh envelope is taken from the bag. -/
def handleMouseDown (m : RealFns) (cfg : Config) (rotSample : ℚ)
    (pos : ℚ × ℚ) (s : GameState) : GameState :=
  match rposition (itemHit m cfg.hand_radius pos) s.items with
  | some index =>
    { s with holding := s.items[index]?, items := s.items.eraseIdx index }
  | none =>
    if (s.bag_position.extend_uniform cfg.hand_radius).contains pos then
      { s with holding := some (Item.new s.envelope cfg.item_scale rotSample) }
    else s

/-- The `MouseUp { button: Left }` arm of `Game::handle_event`:
if an item is held, place it at the pointer, set its velocity to the unit
vector toward `(0, throw_target_height)` rotated by the random deviation
`devSample ∈ (-throw_angle.to_radians(), throw_angle.to_radians())` and
scaled by `throw_speed`, set `w = wSample * item_max_w` with
`wSample ∈ (-1, 1)`, and push it onto the flying collection. -/
def handleMouseUp (m : RealFns) (cfg : Config) (devSample wSample : ℚ)
    (pos : ℚ × ℚ) (s : GameState) : GameState :=
  match s.holding with
  | some item =>
    let dir := normalize_or_zero m
      (0 - pos.1, cfg.throw_target_height - pos.2)
    let vel := rotateVec m dir devSample
    let item := { item with
      pos := pos
      vel := (vel.1 * cfg.throw_speed, vel.2 * cfg.throw_speed)
      w := wSample * cfg.item_max_w }
    { s with holding := none, items := s.items ++ [item] }
  | none => s

/-- The events `Game::handle_event` reacts to: left-button mouse down/up
(with the pointer position already in overlay-plane coordinates) and
everything else (`_ => {}`). -/
inductive Event where
  | mouseDown (pos : ℚ × ℚ)
  | mouseUp (pos : ℚ × ℚ)
  | other
deriving DecidableEq

/-- `Game::handle_event`, with the random samples drawn during handling
passed in explicitly. -/
def handleEvent (m : RealFns) (cfg : Config) (rotSample devSample wSample : ℚ)
    (ev : Event) (s : GameState) : GameState :=
  match ev with
  | .mouseDown pos => handleMouseDown m cfg rotSample pos s
  | .mouseUp pos => handleMouseUp m cfg devSample wSample pos s
  | .other => s

/-! ### The road mesh of `Game::new` (`main.rs` lines 138–152) -/

/-- The fixed subdivision count `N` of the road mesh. -/
def roadN : ℕ := 100

/-- The two vertices the road-mesh generator emits for sample `i`
(the body of the `flat_map`): `yz = vec2(earth_radius, 0).rotate(2π i/N)`,
`uv_y = ceil(2π earth_radius) * i / N`, then for `x ∈ [-1, 1]` the vertex
`a_pos = (x * road_width, yz.x, yz.y)`, `a_uv = (x/2 + 1/2, uv_y)`. -/
def sampleVerts (m : RealFns) (cfg : Config) (i : ℕ) : List Vertex :=
  let yz := rotateVec m (cfg.earth_radius, 0) (2 * float_pi * i / roadN)
  let uv_y : ℚ := ⌈2 * float_pi * cfg.earth_radius⌉ * i / roadN
  [ ⟨(-1 * cfg.road_width, yz.1, yz.2), (-1 * (1/2) + 1/2, uv_y)⟩,
    ⟨( 1 * cfg.road_width, yz.1, yz.2), ( 1 * (1/2) + 1/2, uv_y)⟩ ]

/-- The road mesh built once in `Game::new`: `(0..=N).flat_map(...)`. -/
def roadMesh (m : RealFns) (cfg : Config) : List Vertex :=
  (List.range (roadN + 1)).flatMap (sampleVerts m cfg)

/-- `Game::new`: the initial simulation state.  `camFov` stands for
`camera.fov()`, a value computed in the out-of-scope camera module, used
only for the bag placement
`Aabb2::point((0, -fov/2 + 1)).extend_uniform(1)`. -/
def initGame (m : RealFns) (cfg : Config) (envelope : Texture) (camFov : ℚ) :
    GameState where
  items := []
  holding := none
  mailboxes := []
  my_latitude := 0
  bag_position := Aabb.extend_uniform ⟨(0, -camFov / 2 + 1), (0, -camFov / 2 + 1)⟩ 1
  envelope := envelope
  road_mesh := roadMesh m cfg

/-! ### Concrete instances used for scenarios and counterexamples -/

/-- A concrete config: `distance_between_mailboxes = 10` degrees,
`road_width = 1`, `mailbox_size = 1` (so the lateral offset is `3/2`). -/
def cfg10 : Config where
  gravity := 10
  throw_speed := 20
  throw_angle := 30
  item_scale := 1
  hand_radius := 1
  item_max_w := 5
  throw_target_height := 5
  earth_radius := 100
  ride_speed := 1
  road_width := 1
  mailbox_size := 1
  distance_between_mailboxes := 10

/-- A concrete function table for witnesses: `cos = 1`, `sin = 0`
(exact for angle `0`), unit length. -/
def constFns : RealFns where
  cos := fun _ => 1
  sin := fun _ => 0
  len := fun _ => 1

/-- A concrete envelope texture (2×1 pixels, aspect 2). -/
def envTex : Texture := ⟨0, (2, 1)⟩

/-- The chain of left/right pairs the spawn loop appends: `k` pairs with
latitudes `seed + d, seed + 2d, …, seed + k·d`. -/
def pairChain (cfg : Config) (seed : ℚ) : ℕ → List Mailbox
  | 0 => []
  | k + 1 =>
    ⟨-1 * mailboxOffset cfg, seed + distRad cfg⟩ ::
    ⟨ 1 * mailboxOffset cfg, seed + distRad cfg⟩ ::
    pairChain cfg (seed + distRad cfg) k

/-- A flying item sitting at the origin (rotation 0, half size 1×1). -/
def itemB : Item where
  texture := ⟨1, (1, 1)⟩
  pos := (0, 0)
  vel := (0, 0)
  rot := 0
  w := 0
  half_size := (1, 1)

/-- A distinct held item (different texture, elsewhere). -/
def itemA : Item where
  texture := ⟨2, (1, 1)⟩
  pos := (9, 9)
  vel := (0, 0)
  rot := 0
  w := 0
  half_size := (1, 1)

/-- A state that is HOLDING `itemA` while `itemB` flies at the origin;
the bag is far away from the origin. -/
def s5 : GameState where
  items := [itemB]
  holding := some itemA
  mailboxes := []
  my_latitude := 0
  bag_position := ⟨(5, 5), (6, 6)⟩
  envelope := envTex
  road_mesh := []

/-- A 0-flying-items state holding `itemA`, for the C6 witness. -/
def s6 : GameState where
  items := []
  holding := some itemA
  mailboxes := []
  my_latitude := 0
  bag_position := ⟨(5, 5), (6, 6)⟩
  envelope := envTex
  road_mesh := []

/-- A function table whose length function returns the constant 5 —
which is the exact euclidean length of the throw vector `(0, 5)` used in
the witness scenario. -/
def lenFns : RealFns where
  cos := fun _ => 1
  sin := fun _ => 0
  len := fun _ => 5

/-- The freshly constructed game (`Game::new`) with `cfg10`. -/
def gameStart10 : GameState := initGame constFns cfg10 envTex 2

/-! ### Mailbox-stream lemmas -/

theorem float_pi_pos : (0 : ℚ) < float_pi := by norm_num [float_pi]

theorem seedOf_append_pair (myLat : ℚ) (ms : List Mailbox) (a b : Mailbox) :
    seedOf myLat (ms ++ [a, b]) = b.latitude := by
  rw [seedOf, List.getLast?_append_of_ne_nil _ (by simp)]
  rfl

theorem spawnCond_eq_false_iff (myLat : ℚ) (ms : List Mailbox) :
    spawnCond myLat ms = false ↔
      ∃ mb, ms.getLast? = some mb ∧ myLat + float_pi ≤ mb.latitude := by
  cases h : ms.getLast? with
  | none => simp [spawnCond, h]
  | some mb => simp [spawnCond, h, not_lt]

theorem spawnLoop_of_cond_false {myLat : ℚ} {ms : List Mailbox}
    (cfg : Config) (fuel : ℕ) (h : spawnCond myLat ms = false) :
    spawnLoop cfg myLat fuel ms = ms := by
  cases fuel <;> simp [spawnLoop, h]

theorem spawnLoop_add (cfg : Config) (myLat : ℚ) (f g : ℕ) (ms : List Mailbox) :
    spawnLoop cfg myLat (f + g) ms =
      spawnLoop cfg myLat g (spawnLoop cfg myLat f ms) := by
  induction f generalizing ms with
  | zero => simp [spawnLoop, Nat.zero_add]
  | succ f ih =>
    rw [Nat.succ_add]
    by_cases h : spawnCond myLat ms
    · rw [spawnLoop, if_pos h, spawnLoop, if_pos h, ih]
    · rw [spawnLoop, if_neg (by simp [h]), spawnLoop, if_neg (by simp [h]),
        spawnLoop_of_cond_false cfg g (by simpa using h)]

theorem spawnLoop_eq_pairChain (cfg : Config) (myLat : ℚ) :
    ∀ (fuel : ℕ) (ms : List Mailbox), ∃ k, k ≤ fuel ∧
      spawnLoop cfg myLat fuel ms = ms ++ pairChain cfg (seedOf myLat ms) k := by
  intro fuel
  induction fuel with
  | zero => exact fun ms => ⟨0, le_refl 0, by simp [spawnLoop, pairChain]⟩
  | succ f ih =>
    intro ms
    by_cases h : spawnCond myLat ms
    · obtain ⟨k, hk, heq⟩ := ih (spawnStep cfg myLat ms)
      refine ⟨k + 1, by omega, ?_⟩
      rw [spawnLoop, if_pos h, heq, spawnStep, seedOf_append_pair,
        pairChain, List.append_assoc]
      rfl
    · exact ⟨0, by omega, by rw [spawnLoop, if_neg (by simp [h])]; simp [pairChain]⟩

theorem mem_pairChain (cfg : Config) :
    ∀ (k : ℕ) (seed : ℚ) (mb : Mailbox), mb ∈ pairChain cfg seed k →
      ∃ j : ℕ, 1 ≤ j ∧ j ≤ k ∧ mb.latitude = seed + j * distRad cfg ∧
        (mb.x = -1 * mailboxOffset cfg ∨ mb.x = 1 * mailboxOffset cfg) := by
  intro k
  induction k with
  | zero => intro seed mb h; simp [pairChain] at h
  | succ k ih =>
    intro seed mb h
    rw [pairChain] at h
    simp only [List.mem_cons] at h
    rcases h with h | h | h
    · exact ⟨1, le_refl 1, by omega, by simp [h], Or.inl (by simp [h])⟩
    · exact ⟨1, le_refl 1, by omega, by simp [h], Or.inr (by simp [h])⟩
    · obtain ⟨j, h1, hk, hlat, hx⟩ := ih (seed + distRad cfg) mb h
      refine ⟨j + 1, by omega, by omega, ?_, hx⟩
      rw [hlat]; push_cast; ring

theorem spawnCond_eq_true_of_getLast {myLat : ℚ} {ms : List Mailbox}
    {mb : Mailbox} (hlast : ms.getLast? = some mb)
    (h : spawnCond myLat ms = true) : mb.latitude < myLat + float_pi := by
  rw [spawnCond, hlast] at h
  simpa using h

/-- Every mailbox the spawn loop can produce stays strictly below
`my_latitude + π + d`: the loop only pushes while the last latitude is
below `my_latitude + π`, and each push overshoots by exactly `d`. -/
theorem spawnLoop_upper (cfg : Config) (myLat : ℚ) :
    ∀ (fuel : ℕ) (ms : List Mailbox),
      (∀ mb ∈ ms, mb.latitude < myLat + float_pi + distRad cfg) →
      ∀ mb ∈ spawnLoop cfg myLat fuel ms,
        mb.latitude < myLat + float_pi + distRad cfg := by
  intro fuel
  induction fuel with
  | zero => intro ms h; simpa [spawnLoop] using h
  | succ f ih =>
    intro ms h
    by_cases hc : spawnCond myLat ms
    · rw [spawnLoop, if_pos hc]
      refine ih (spawnStep cfg myLat ms) ?_
      intro mb hmb
      rw [spawnStep] at hmb
      simp only [List.mem_append, List.mem_cons, List.not_mem_nil, or_false] at hmb
      rcases hmb with hmb | hmb | hmb
      · exact h mb hmb
      · cases hlast : ms.getLast? with
        | none =>
          have : seedOf myLat ms = myLat := by rw [seedOf, hlast]; rfl
          rw [hmb, this]
          simp only [Mailbox.latitude]
          linarith [float_pi_pos]
        | some mb0 =>
          have hseed : seedOf myLat ms = mb0.latitude := by rw [seedOf, hlast]; rfl
          have := spawnCond_eq_true_of_getLast hlast hc
          rw [hmb, hseed]
          simp only [Mailbox.latitude]
          linarith
      · cases hlast : ms.getLast? with
        | none =>
          have : seedOf myLat ms = myLat := by rw [seedOf, hlast]; rfl
          rw [hmb, this]
          simp only [Mailbox.latitude]
          linarith [float_pi_pos]
        | some mb0 =>
          have hseed : seedOf myLat ms = mb0.latitude := by rw [seedOf, hlast]; rfl
          have := spawnCond_eq_true_of_getLast hlast hc
          rw [hmb, hseed]
          simp only [Mailbox.latitude]
          linarith
    · rw [spawnLoop, if_neg (by simp [hc])]
      exact h

/-- Every mailbox after a full tick lies strictly above
`my_latitude - π`: the retain drops everything at or below it, and the
spawn loop only appends beyond the seed latitude. -/
theorem mailboxTick_lower (cfg : Config) (myLat : ℚ) (fuel : ℕ)
    (ms : List Mailbox) (hd : 0 ≤ distRad cfg) :
    ∀ mb ∈ mailboxTick cfg myLat fuel ms, myLat - float_pi < mb.latitude := by
  intro mb hmb
  rw [mailboxTick] at hmb
  set fl := ms.filter fun mb => decide (myLat - float_pi < mb.latitude) with hfl
  obtain ⟨k, _, heq⟩ := spawnLoop_eq_pairChain cfg myLat fuel fl
  rw [heq, List.mem_append] at hmb
  have hflmem : ∀ a ∈ fl, myLat - float_pi < a.latitude := by
    intro a ha
    rw [hfl, List.mem_filter] at ha
    simpa using ha.2
  rcases hmb with hmb | hmb
  · exact hflmem mb hmb
  · obtain ⟨j, h1, _, hlat, _⟩ := mem_pairChain cfg k (seedOf myLat fl) mb hmb
    have hj : (0 : ℚ) ≤ j * distRad cfg :=
      mul_nonneg (by positivity) hd
    have hseed : myLat - float_pi < seedOf myLat fl := by
      cases hlast : fl.getLast? with
      | none =>
        rw [seedOf, hlast]
        simpa using float_pi_pos
      | some mb0 =>
        rw [seedOf, hlast]
        exact hflmem mb0 (List.mem_of_mem_getLast? hlast)
    rw [hlat]
    linarith

/-- With positive spacing, enough fuel drives the loop condition false:
each iteration advances the seed latitude by exactly `d`. -/
theorem spawnLoop_converges (cfg : Config) (myLat : ℚ) :
    ∀ (fuel : ℕ) (ms : List Mailbox),
      myLat + float_pi ≤ seedOf myLat ms + fuel * distRad cfg →
      spawnCond myLat (spawnLoop cfg myLat fuel ms) = false := by
  intro fuel
  induction fuel with
  | zero =>
    intro ms h
    simp only [Nat.cast_zero, zero_mul, add_zero] at h
    rw [spawnLoop]
    cases hlast : ms.getLast? with
    | none =>
      rw [seedOf, hlast] at h
      simp only [Option.elim] at h
      linarith [float_pi_pos]
    | some mb =>
      rw [seedOf, hlast] at h
      rw [spawnCond, hlast]
      simp only [Option.elim, decide_eq_false_iff_not, not_lt]
      exact h
  | succ f ih =>
    intro ms h
    by_cases hc : spawnCond myLat ms
    · rw [spawnLoop, if_pos hc]
      refine ih (spawnStep cfg myLat ms) ?_
      rw [spawnStep, seedOf_append_pair]
      simp only [Mailbox.latitude]
      push_cast at h ⊢
      linarith
    · rw [spawnLoop, if_neg (by simp [hc])]
      simpa using hc

theorem latitude_le_getLast_of_pairwise :
    ∀ ms : List Mailbox,
      List.Pairwise (fun a b : Mailbox => a.latitude ≤ b.latitude) ms →
      ∀ a ∈ ms, ∀ mb, ms.getLast? = some mb → a.latitude ≤ mb.latitude := by
  intro ms
  induction ms with
  | nil => intro _ a ha; simp at ha
  | cons x xs ih =>
    intro hp a ha mb hlast
    cases xs with
    | nil =>
      simp at hlast ha
      rw [ha, hlast]
    | cons y ys =>
      rw [List.getLast?_cons_cons] at hlast
      rw [List.pairwise_cons] at hp
      simp only [List.mem_cons] at ha
      rcases ha with rfl | ha
      · exact hp.1 mb (List.mem_of_mem_getLast? hlast)
      · exact ih hp.2 a (List.mem_cons.2 ha) mb hlast

/-- The spawn loop preserves non-decreasing latitude order: each spawned
pair sits `d` beyond the current last (and hence maximal) latitude. -/
theorem spawnLoop_pairwise (cfg : Config) (myLat : ℚ)
    (hd : 0 ≤ distRad cfg) :
    ∀ (fuel : ℕ) (ms : List Mailbox),
      List.Pairwise (fun a b : Mailbox => a.latitude ≤ b.latitude) ms →
      List.Pairwise (fun a b : Mailbox => a.latitude ≤ b.latitude)
        (spawnLoop cfg myLat fuel ms) := by
  intro fuel
  induction fuel with
  | zero => intro ms h; simpa [spawnLoop] using h
  | succ f ih =>
    intro ms h
    by_cases hc : spawnCond myLat ms
    · rw [spawnLoop, if_pos hc]
      refine ih (spawnStep cfg myLat ms) ?_
      rw [spawnStep, List.pairwise_append]
      refine ⟨h, by simp, ?_⟩
      intro a ha b hb
      have hseed : a.latitude ≤ seedOf myLat ms := by
        cases hlast : ms.getLast? with
        | none => exact absurd (List.getLast?_eq_none_iff.1 hlast ▸ ha) (List.not_mem_nil a)
        | some mb0 =>
          rw [seedOf, hlast]
          exact latitude_le_getLast_of_pairwise ms h a ha mb0 hlast
      simp only [List.mem_cons, List.not_mem_nil, or_false] at hb
      rcases hb with rfl | rfl <;> simp only [Mailbox.latitude] <;> linarith
    · rwa [spawnLoop, if_neg (by simp [hc])]

theorem update_mailboxes (cfg : Config) (fuel : ℕ) (dt : ℚ) (s : GameState) :
    (update cfg fuel dt s).mailboxes =
      mailboxTick cfg (s.my_latitude + cfg.ride_speed * dt) fuel s.mailboxes :=
  rfl

theorem update_my_latitude (cfg : Config) (fuel : ℕ) (dt : ℚ) (s : GameState) :
    (update cfg fuel dt s).my_latitude = s.my_latitude + cfg.ride_speed * dt :=
  rfl

/-! ### Claims C1, C2, C9, C10: the mailbox stream -/

/-- C9: the mailbox window-fill loop of the update tick terminates for
every state (in particular the startup state `my_latitude = 0` with an
empty collection, where `my_latitude` seeds the first spawn), provided
`distance_between_mailboxes.to_radians() > 0`: some finite fuel makes the
loop condition false, and any extra fuel leaves the result unchanged. -/
theorem C9_spawn_loop_terminates (cfg : Config) (myLat : ℚ)
    (ms : List Mailbox) (hd : 0 < distRad cfg) :
    ∃ fuel : ℕ, spawnCond myLat (mailboxTick cfg myLat fuel ms) = false ∧
      ∀ extra : ℕ,
        mailboxTick cfg myLat (fuel + extra) ms =
          mailboxTick cfg myLat fuel ms := by
  set fl := ms.filter fun mb => decide (myLat - float_pi < mb.latitude) with hfl
  set fuel := (⌈(myLat + float_pi - seedOf myLat fl) / distRad cfg⌉).toNat with hfuel
  have hconv : spawnCond myLat (spawnLoop cfg myLat fuel fl) = false := by
    apply spawnLoop_converges
    have h1 : (myLat + float_pi - seedOf myLat fl) / distRad cfg ≤ (fuel : ℚ) := by
      calc (myLat + float_pi - seedOf myLat fl) / distRad cfg
          ≤ (⌈(myLat + float_pi - seedOf myLat fl) / distRad cfg⌉ : ℚ) :=
            Int.le_ceil _
        _ ≤ (fuel : ℚ) := by
            rw [hfuel]
            exact_mod_cast Int.self_le_toNat _
    have h2 := (div_le_iff₀ hd).1 h1
    linarith
  refine ⟨fuel, ?_, ?_⟩
  · rw [mailboxTick, ← hfl]
    exact hconv
  · intro extra
    rw [mailboxTick, mailboxTick, ← hfl, spawnLoop_add]
    exact spawnLoop_of_cond_false cfg extra hconv

unseal Rat.mul Rat.inv in
/-- C9 witness: at the startup state (`my_latitude = 0`, empty
collection) with 10° spacing the loop terminates. -/
theorem C9_spawn_loop_terminates_witness :
    0 < distRad cfg10 ∧
      ∃ fuel : ℕ, spawnCond 0 (mailboxTick cfg10 0 fuel []) = false ∧
        ∀ extra : ℕ,
          mailboxTick cfg10 0 (fuel + extra) [] = mailboxTick cfg10 0 fuel [] :=
  ⟨by decide, C9_spawn_loop_terminates cfg10 0 [] (by decide)⟩

/-- C2: whenever the update tick spawns mailboxes it appends left/right
pairs: the post-tick collection is the retained prefix followed by a chain
of pairs, each pair at one equal latitude `previous + d` (`d` the degree
spacing converted to radians) starting from the furthest retained mailbox
(or `my_latitude` when none remain), with lateral offsets exactly
`-(road_width + mailbox_size/2)` and `+(road_width + mailbox_size/2)`. -/
theorem C2_pair_spawning :
    (∀ (cfg : Config) (fuel : ℕ) (dt : ℚ) (s : GameState), ∃ k : ℕ,
      (update cfg fuel dt s).mailboxes =
        (s.mailboxes.filter fun mb =>
          decide (s.my_latitude + cfg.ride_speed * dt - float_pi < mb.latitude)) ++
        pairChain cfg
          (seedOf (s.my_latitude + cfg.ride_speed * dt)
            (s.mailboxes.filter fun mb =>
              decide (s.my_latitude + cfg.ride_speed * dt - float_pi < mb.latitude)))
          k) ∧
    (∀ (cfg : Config) (seed : ℚ), pairChain cfg seed 0 = []) ∧
    (∀ (cfg : Config) (seed : ℚ) (k : ℕ), pairChain cfg seed (k + 1) =
      ⟨-(cfg.road_width + cfg.mailbox_size / 2),
        seed + cfg.distance_between_mailboxes * (float_pi / 180)⟩ ::
      ⟨cfg.road_width + cfg.mailbox_size / 2,
        seed + cfg.distance_between_mailboxes * (float_pi / 180)⟩ ::
      pairChain cfg (seed + cfg.distance_between_mailboxes * (float_pi / 180)) k) ∧
    (∀ (myLat : ℚ) (ms : List Mailbox),
      seedOf myLat ms = (ms.getLast?).elim myLat Mailbox.latitude) := by
  refine ⟨?_, ?_, ?_, fun _ _ => rfl⟩
  · intro cfg fuel dt s
    obtain ⟨k, _, heq⟩ := spawnLoop_eq_pairChain cfg
      (s.my_latitude + cfg.ride_speed * dt) fuel
      (s.mailboxes.filter fun mb =>
        decide (s.my_latitude + cfg.ride_speed * dt - float_pi < mb.latitude))
    exact ⟨k, by rw [update_mailboxes, mailboxTick, heq]⟩
  · intro cfg seed; rfl
  · intro cfg seed k
    rw [pairChain]
    simp [mailboxOffset, distRad, to_radians, neg_one_mul, one_mul]

unseal Rat.add Rat.mul Rat.inv Rat.sub in
/-- C1 counterexample: from `my_latitude = 0` with an empty collection
and 10° spacing (config `cfg10`), one update tick produces a mailbox at
latitude exactly `π` (the modelled `f32::PI`), i.e. at 180°, which is NOT
strictly below `my_latitude + π`: the loop always overshoots the window's
leading edge by one pair, so neither the strict window invariant nor the
"strictly below 180°" scenario holds as claimed. -/
theorem C1_counterexample :
    (⟨3/2, float_pi⟩ : Mailbox) ∈ (update cfg10 100 0 gameStart10).mailboxes ∧
    ¬ ((⟨3/2, float_pi⟩ : Mailbox).latitude <
        (update cfg10 100 0 gameStart10).my_latitude + float_pi) := by
  decide

unseal Rat.add Rat.mul Rat.inv Rat.sub in
/-- The concrete one-pass window fill: from `my_latitude = 0`, empty
collection and 10° spacing, the resulting collection is exactly 18
symmetric pairs at latitudes `k · 10°` (in radians) for `k = 1, …, 18`. -/
theorem scenario10_mailboxes :
    (update cfg10 100 0 gameStart10).mailboxes =
      (List.range 18).flatMap fun k =>
        [⟨-(3/2 : ℚ), ((k : ℚ) + 1) * to_radians 10⟩,
         ⟨(3/2 : ℚ), ((k : ℚ) + 1) * to_radians 10⟩] := by
  decide

/-- C1 (amended): after an update tick, (a) when the spacing is
non-negative and every pre-tick mailbox was below the post-tick
`my_latitude + π + d`, every mailbox satisfies
`my_latitude - π < latitude < my_latitude + π + d` (the strict upper edge
is `π + d`, not `π`); (b) once the loop has converged the furthest (last)
mailbox lies AT or BEYOND `my_latitude + π`; (c) completeness in the
scenario: from `my_latitude = 0`, empty collection and 10° spacing, one
tick yields exactly the pairs at `10°, 20°, …, 180°` — inclusive of
`180°`, each pair symmetric in `x`. -/
theorem C1_window_amended :
    (∀ (cfg : Config) (fuel : ℕ) (dt : ℚ) (s : GameState),
      0 ≤ distRad cfg →
      (∀ mb ∈ s.mailboxes,
        mb.latitude < s.my_latitude + cfg.ride_speed * dt + float_pi + distRad cfg) →
      ∀ mb ∈ (update cfg fuel dt s).mailboxes,
        (update cfg fuel dt s).my_latitude - float_pi < mb.latitude ∧
        mb.latitude < (update cfg fuel dt s).my_latitude + float_pi + distRad cfg) ∧
    (∀ (cfg : Config) (fuel : ℕ) (dt : ℚ) (s : GameState) (mb : Mailbox),
      spawnCond (update cfg fuel dt s).my_latitude
        (update cfg fuel dt s).mailboxes = false →
      (update cfg fuel dt s).mailboxes.getLast? = some mb →
      (update cfg fuel dt s).my_latitude + float_pi ≤ mb.latitude) ∧
    ((update cfg10 100 0 gameStart10).mailboxes =
      (List.range 18).flatMap fun k =>
        [⟨-(3/2 : ℚ), ((k : ℚ) + 1) * to_radians 10⟩,
         ⟨(3/2 : ℚ), ((k : ℚ) + 1) * to_radians 10⟩]) := by
  refine ⟨?_, ?_, ?_⟩
  · intro cfg fuel dt s hd hpre mb hmb
    rw [update_mailboxes] at hmb
    rw [update_my_latitude]
    constructor
    · exact mailboxTick_lower cfg _ fuel s.mailboxes hd mb hmb
    · rw [mailboxTick] at hmb
      refine spawnLoop_upper cfg _ fuel _ ?_ mb hmb
      intro mb' hmb'
      exact hpre mb' (List.mem_of_mem_filter hmb')
  · intro cfg fuel dt s mb hcond hlast
    obtain ⟨mb', hlast', hle⟩ := (spawnCond_eq_false_iff _ _).1 hcond
    rw [hlast] at hlast'
    cases hlast'
    exact hle
  · exact scenario10_mailboxes

unseal Rat.mul Rat.inv in
/-- C1 witness for the amended invariant: the bounds hold concretely after
one tick from the startup state with `cfg10`. -/
theorem C1_window_amended_witness :
    0 ≤ distRad cfg10 ∧
      ∀ mb ∈ (update cfg10 100 0 gameStart10).mailboxes,
        (update cfg10 100 0 gameStart10).my_latitude - float_pi < mb.latitude ∧
        mb.latitude <
          (update cfg10 100 0 gameStart10).my_latitude + float_pi + distRad cfg10 :=
  ⟨by decide,
    C1_window_amended.1 cfg10 100 0 gameStart10 (by decide)
      (by intro mb h; exact absurd h (List.not_mem_nil mb))⟩

/-- C10: the mailboxes vector is kept sorted in non-decreasing latitude
order by every update tick (the retain is an order-preserving filter, the
spawn loop appends pairs beyond the current maximum), and consequently the
vector's last element is always a furthest-ahead mailbox — which is what
makes reading `mailboxes.last()` in the windowing logic correct. -/
theorem C10_sorted_invariant (cfg : Config) (fuel : ℕ) (dt : ℚ)
    (s : GameState) (hd : 0 ≤ distRad cfg)
    (hs : List.Pairwise (fun a b : Mailbox => a.latitude ≤ b.latitude)
      s.mailboxes) :
    List.Pairwise (fun a b : Mailbox => a.latitude ≤ b.latitude)
      (update cfg fuel dt s).mailboxes ∧
    ∀ mb ∈ (update cfg fuel dt s).mailboxes, ∀ lastMb,
      (update cfg fuel dt s).mailboxes.getLast? = some lastMb →
      mb.latitude ≤ lastMb.latitude := by
  have hsorted : List.Pairwise (fun a b : Mailbox => a.latitude ≤ b.latitude)
      (update cfg fuel dt s).mailboxes := by
    rw [update_mailboxes, mailboxTick]
    exact spawnLoop_pairwise cfg _ hd fuel _ (hs.filter _)
  exact ⟨hsorted, fun mb hmb lastMb hlast =>
    latitude_le_getLast_of_pairwise _ hsorted mb hmb lastMb hlast⟩

unseal Rat.mul Rat.inv in
/-- C10 witness: sortedness after one tick from the startup state. -/
theorem C10_sorted_invariant_witness :
    0 ≤ distRad cfg10 ∧
      List.Pairwise (fun a b : Mailbox => a.latitude ≤ b.latitude)
        (update cfg10 100 0 gameStart10).mailboxes :=
  ⟨by decide,
    (C10_sorted_invariant cfg10 100 0 gameStart10 (by decide)
      (by exact List.Pairwise.nil)).1⟩

/-! ### Claims C3–C7: item physics and event handling -/

/-- C3: each update tick integrates exactly the flying items (the held
item is untouched), and per item, in order: the velocity `y` component
loses `gravity·dt` first, the position then advances by the ALREADY
UPDATED velocity times `dt`, the rotation advances by `w·dt`; texture,
angular velocity and half-size are unchanged. -/
theorem C3_integration (cfg : Config) (fuel : ℕ) (dt : ℚ) (s : GameState) :
    (update cfg fuel dt s).items = s.items.map (stepItem cfg.gravity dt) ∧
    (update cfg fuel dt s).holding = s.holding ∧
    ∀ it : Item,
      (stepItem cfg.gravity dt it).vel = (it.vel.1, it.vel.2 - cfg.gravity * dt) ∧
      (stepItem cfg.gravity dt it).pos =
        (it.pos.1 + (stepItem cfg.gravity dt it).vel.1 * dt,
         it.pos.2 + (stepItem cfg.gravity dt it).vel.2 * dt) ∧
      (stepItem cfg.gravity dt it).rot = it.rot + it.w * dt ∧
      (stepItem cfg.gravity dt it).texture = it.texture ∧
      (stepItem cfg.gravity dt it).w = it.w ∧
      (stepItem cfg.gravity dt it).half_size = it.half_size := by
  exact ⟨rfl, rfl, fun it => ⟨rfl, rfl, rfl, rfl, rfl, rfl⟩⟩

theorem rposition_none_spec (p : α → Bool) :
    ∀ l : List α, rposition p l = none → ∀ a ∈ l, p a = false := by
  intro l
  induction l with
  | nil => intro _ a ha; simp at ha
  | cons a as ih =>
    intro h b hb
    rw [rposition] at h
    cases hr : rposition p as with
    | some i => rw [hr] at h; simp at h
    | none =>
      rw [hr] at h
      by_cases hpa : p a
      · rw [if_pos hpa] at h; simp at h
      · simp only [List.mem_cons] at hb
        rcases hb with rfl | hb
        · simpa using hpa
        · exact ih hr b hb

theorem rposition_some_spec (p : α → Bool) :
    ∀ (l : List α) (i : ℕ), rposition p l = some i →
      ∃ h : i < l.length, p (l.get ⟨i, h⟩) = true ∧
        ∀ j, ∀ hj : j < l.length, i < j → p (l.get ⟨j, hj⟩) = false := by
  intro l
  induction l with
  | nil => intro i h; simp [rposition] at h
  | cons a as ih =>
    intro i h
    rw [rposition] at h
    cases hr : rposition p as with
    | some i' =>
      rw [hr] at h
      obtain rfl : i' + 1 = i := Option.some.inj h
      obtain ⟨hlt, hhit, hlast⟩ := ih i' hr
      refine ⟨by simpa using Nat.succ_lt_succ hlt, by simpa using hhit, ?_⟩
      intro j hj hij
      cases j with
      | zero => omega
      | succ j' =>
        have hj' : j' < as.length := by simpa using hj
        simpa using hlast j' hj' (by omega)
    | none =>
      rw [hr] at h
      by_cases hpa : p a
      · rw [if_pos hpa] at h
        obtain rfl : 0 = i := Option.some.inj h
        refine ⟨by simp, by simpa using hpa, ?_⟩
        intro j hj hij
        cases j with
        | zero => omega
        | succ j' =>
          have hj' : j' < as.length := by simpa using hj
          have hmem : as.get ⟨j', hj'⟩ ∈ as := as.get_mem j' hj'
          simpa using rposition_none_spec p as hr _ hmem
      · rw [if_neg hpa] at h; simp at h

/-- C4: on a left press, the flying collection is scanned for the LAST
(most recently inserted) item whose inverse-transformed pointer
coordinate lands in `[-1,1]²`; that item is removed from the collection
and becomes held.  Only when no flying item matches is the bag rectangle
(expanded by `hand_radius`) tested, spawning a fresh default-texture,
default-scale held item; a miss of both leaves the state unchanged. -/
theorem C4_pickup_priority (m : RealFns) (cfg : Config)
    (rotS devS wS : ℚ) (pos : ℚ × ℚ) (s : GameState) :
    (∃ i, ∃ h : i < s.items.length,
      itemHit m cfg.hand_radius pos (s.items.get ⟨i, h⟩) = true ∧
      (∀ j, ∀ hj : j < s.items.length, i < j →
        itemHit m cfg.hand_radius pos (s.items.get ⟨j, hj⟩) = false) ∧
      handleEvent m cfg rotS devS wS (.mouseDown pos) s =
        { s with holding := some (s.items.get ⟨i, h⟩),
                 items := s.items.eraseIdx i }) ∨
    ((∀ it ∈ s.items, itemHit m cfg.hand_radius pos it = false) ∧
      (((s.bag_position.extend_uniform cfg.hand_radius).contains pos = true ∧
        handleEvent m cfg rotS devS wS (.mouseDown pos) s =
          { s with holding := some (Item.new s.envelope cfg.item_scale rotS) }) ∨
       ((s.bag_position.extend_uniform cfg.hand_radius).contains pos = false ∧
        handleEvent m cfg rotS devS wS (.mouseDown pos) s = s))) := by
  show (∃ i, _) ∨ _
  cases hr : rposition (itemHit m cfg.hand_radius pos) s.items with
  | some i =>
    left
    obtain ⟨h, hhit, hlast⟩ := rposition_some_spec _ s.items i hr
    refine ⟨i, h, hhit, hlast, ?_⟩
    show handleMouseDown m cfg rotS pos s = _
    rw [handleMouseDown, hr]
    simp only [List.getElem?_eq_getElem h]
    rfl
  | none =>
    right
    refine ⟨rposition_none_spec _ s.items hr, ?_⟩
    by_cases hbag : (s.bag_position.extend_uniform cfg.hand_radius).contains pos
    · left
      refine ⟨hbag, ?_⟩
      show handleMouseDown m cfg rotS pos s = _
      rw [handleMouseDown, hr]
      simp [hbag]
    · right
      refine ⟨by simpa using hbag, ?_⟩
      show handleMouseDown m cfg rotS pos s = _
      rw [handleMouseDown, hr]
      simp [hbag]

unseal Rat.add Rat.mul Rat.inv Rat.sub in
/-- C5 counterexample: `handle_event` does NOT gate pick-up on the holding
state.  In state `s5` (holding `itemA`, with `itemB` flying under the
pointer), a further left press at the origin removes `itemB` from the
flying collection and makes it the held item, discarding `itemA` — the
press has a pick-up effect, contradicting the claim on all three counts
(it removes a flying item, and it changes which item is held). -/
theorem C5_counterexample :
    s5.holding = some itemA ∧
    handleEvent constFns cfg10 0 0 0 (.mouseDown (0, 0)) s5 =
      { s5 with items := [], holding := some itemB } ∧
    itemB ≠ itemA := by
  refine ⟨rfl, ?_, by decide⟩
  decide

/-- C5 (amended): a left press while an item is held behaves exactly as
the same press with nothing held: the resulting flying collection is
identical, and the held slot afterwards contains the new pick when the
press picked something up (the previously held item is discarded and
replaced) and still the old item otherwise.  At most one item is held at
any time (the holding slot is a single option), but holding does not
suppress pick-up. -/
theorem C5_held_press_amended (m : RealFns) (cfg : Config) (rotS : ℚ)
    (pos : ℚ × ℚ) (s : GameState) (it : Item) :
    (handleMouseDown m cfg rotS pos { s with holding := some it }).items =
      (handleMouseDown m cfg rotS pos { s with holding := none }).items ∧
    handleMouseDown m cfg rotS pos { s with holding := some it } =
      { handleMouseDown m cfg rotS pos { s with holding := none } with
        holding := some ((handleMouseDown m cfg rotS pos
          { s with holding := none }).holding.getD it) } := by
  obtain ⟨items, holding, mailboxes, myLat, bag, env, mesh⟩ := s
  cases hr : rposition (itemHit m cfg.hand_radius pos) items with
  | some i =>
    obtain ⟨h, -, -⟩ := rposition_some_spec _ items i hr
    constructor <;>
      simp [handleMouseDown, hr, List.getElem?_eq_getElem h]
  | none =>
    by_cases hbag : (Aabb.extend_uniform bag cfg.hand_radius).contains pos <;>
      constructor <;>
        simp [handleMouseDown, hr, hbag]

/-- C6: on a left release with an item held, the item is placed at the
pointer's overlay-plane position, its velocity becomes the
`normalize_or_zero` unit vector from there toward
`(0, throw_target_height)`, rotated by the random deviation sample (drawn
from `(-throw_angle, throw_angle)` in radians) and scaled by
`throw_speed`; its angular velocity becomes `wSample · item_max_w`
(`wSample` drawn from `(-1, 1)`); it is appended at the END of the flying
collection and the held slot is cleared.  When the pointer is directly
below the throw target, the pre-deviation direction is the straight-up
unit vector `(0, 1)`. -/
theorem C6_throw (m : RealFns) (cfg : Config) (rotS devS wS : ℚ)
    (pos : ℚ × ℚ) (s : GameState) (item : Item)
    (hheld : s.holding = some item)
    (_hdev : -to_radians cfg.throw_angle < devS ∧
      devS < to_radians cfg.throw_angle)
    (_hw : -1 < wS ∧ wS < 1) :
    (handleEvent m cfg rotS devS wS (.mouseUp pos) s =
      { s with
        holding := none
        items := s.items ++ [{ item with
          pos := pos
          vel := ((rotateVec m (normalize_or_zero m
              (0 - pos.1, cfg.throw_target_height - pos.2)) devS).1 *
                cfg.throw_speed,
            (rotateVec m (normalize_or_zero m
              (0 - pos.1, cfg.throw_target_height - pos.2)) devS).2 *
                cfg.throw_speed)
          w := wS * cfg.item_max_w }] }) ∧
    (pos.1 = 0 → pos.2 < cfg.throw_target_height →
      m.len (0 - pos.1, cfg.throw_target_height - pos.2) =
        cfg.throw_target_height - pos.2 →
      normalize_or_zero m (0 - pos.1, cfg.throw_target_height - pos.2) =
        (0, 1)) := by
  constructor
  · show handleMouseUp m cfg devS wS pos s = _
    rw [handleMouseUp, hheld]
  · intro hx hy hlen
    rw [normalize_or_zero, hlen,
      if_neg (by intro h; rw [sub_eq_zero] at h; linarith [h])]
    rw [hx]
    have hpos : cfg.throw_target_height - pos.2 ≠ 0 := by
      intro h
      rw [sub_eq_zero] at h
      exact absurd h.symm (ne_of_lt hy)
    simp [hpos]

unseal Rat.add Rat.mul Rat.inv Rat.sub in
/-- C6 witness: releasing at `(0,0)` directly below the throw target
`(0, 5)` of `cfg10` yields the straight-up unit direction `(0, 1)`. -/
theorem C6_throw_witness :
    normalize_or_zero lenFns
      (0 - (0 : ℚ), cfg10.throw_target_height - (0 : ℚ)) = (0, 1) :=
  (C6_throw lenFns cfg10 0 0 0 (0, 0) s6 itemA rfl
      ⟨by decide, by decide⟩ ⟨by decide, by decide⟩).2 rfl (by decide)
    (by decide)

/-- C7: every `handle_event` outcome is a duplication-free ownership
transfer: the state is unchanged; or one flying item is REMOVED from the
collection and becomes the held item; or the collection is unchanged and
a fresh bag item becomes held; or (release) the held slot is CLEARED and
a single item — carrying the held item's texture, rotation and size — is
appended to the collection.  No outcome both keeps an item in the
collection and installs it as held. -/
theorem C7_ownership_transfer (m : RealFns) (cfg : Config)
    (rotS devS wS : ℚ) (ev : Event) (s : GameState) :
    handleEvent m cfg rotS devS wS ev s = s ∨
    (∃ i, ∃ h : i < s.items.length,
      (handleEvent m cfg rotS devS wS ev s).items = s.items.eraseIdx i ∧
      (handleEvent m cfg rotS devS wS ev s).holding =
        some (s.items.get ⟨i, h⟩)) ∨
    ((handleEvent m cfg rotS devS wS ev s).items = s.items ∧
      (handleEvent m cfg rotS devS wS ev s).holding =
        some (Item.new s.envelope cfg.item_scale rotS)) ∨
    (∃ it thrown, s.holding = some it ∧
      (handleEvent m cfg rotS devS wS ev s).holding = none ∧
      (handleEvent m cfg rotS devS wS ev s).items = s.items ++ [thrown] ∧
      thrown.texture = it.texture ∧ thrown.rot = it.rot ∧
      thrown.half_size = it.half_size) := by
  cases ev with
  | other => exact Or.inl rfl
  | mouseUp pos =>
    cases hheld : s.holding with
    | none =>
      left
      show handleMouseUp m cfg devS wS pos s = s
      rw [handleMouseUp, hheld]
    | some it =>
      right; right; right
      refine ⟨it, { it with
          pos := pos
          vel := ((rotateVec m (normalize_or_zero m
              (0 - pos.1, cfg.throw_target_height - pos.2)) devS).1 *
                cfg.throw_speed,
            (rotateVec m (normalize_or_zero m
              (0 - pos.1, cfg.throw_target_height - pos.2)) devS).2 *
                cfg.throw_speed)
          w := wS * cfg.item_max_w }, rfl, ?_, ?_, rfl, rfl, rfl⟩
      · show (handleMouseUp m cfg devS wS pos s).holding = none
        rw [handleMouseUp, hheld]
      · show (handleMouseUp m cfg devS wS pos s).items = _
        rw [handleMouseUp, hheld]
  | mouseDown pos =>
    cases hr : rposition (itemHit m cfg.hand_radius pos) s.items with
    | some i =>
      right; left
      obtain ⟨h, -, -⟩ := rposition_some_spec _ s.items i hr
      refine ⟨i, h, ?_, ?_⟩
      · show (handleMouseDown m cfg rotS pos s).items = _
        rw [handleMouseDown, hr]
      · show (handleMouseDown m cfg rotS pos s).holding = _
        rw [handleMouseDown, hr]
        simp only [List.getElem?_eq_getElem h]
        rfl
    | none =>
      by_cases hbag : (s.bag_position.extend_uniform cfg.hand_radius).contains pos
      · right; right; left
        constructor
        · show (handleMouseDown m cfg rotS pos s).items = s.items
          rw [handleMouseDown, hr]
          rw [if_pos hbag]
        · show (handleMouseDown m cfg rotS pos s).holding = _
          rw [handleMouseDown, hr]
          rw [if_pos hbag]
      · left
        show handleMouseDown m cfg rotS pos s = s
        rw [handleMouseDown, hr]
        rw [if_neg hbag]

/-! ### Claim C8: the road mesh -/

theorem flatMap_two_getElem? {α : Type} :
    ∀ (n : ℕ) (g : ℕ → List α), (∀ j, (g j).length = 2) →
      ∀ i, i < n →
        ((List.range n).flatMap g)[2 * i]? = (g i)[0]? ∧
        ((List.range n).flatMap g)[2 * i + 1]? = (g i)[1]? := by
  intro n
  induction n with
  | zero => intro g h2 i hi; omega
  | succ n ih =>
    intro g h2 i hi
    rw [List.range_succ_eq_map, List.flatMap_cons, List.flatMap_map]
    cases i with
    | zero =>
      constructor <;>
        · rw [List.getElem?_append]
          simp [h2 0]
    | succ i =>
      have e1 : 2 * (i + 1) = (g 0).length + (2 * i) := by rw [h2 0]; omega
      have e2 : 2 * (i + 1) + 1 = (g 0).length + (2 * i + 1) := by
        rw [h2 0]; omega
      obtain ⟨ha, hb⟩ := ih (fun x => g (x + 1)) (fun j => h2 (j + 1)) i
        (by omega)
      constructor
      · rw [e1, List.getElem?_append_right (Nat.le_add_right _ _),
          Nat.add_sub_cancel_left]
        exact ha
      · rw [e2, List.getElem?_append_right (Nat.le_add_right _ _),
          Nat.add_sub_cancel_left]
        exact hb

/-- C8: the road mesh built once in `Game::new` has exactly `2·(N+1)`
vertices (`N = 100`): sample `i` contributes a left and a right vertex at
lateral offsets `-road_width` and `+road_width` on the circle of radius
`earth_radius` at angle `2π·i/N`, with lateral texture coordinate `0`
resp. `1` and longitudinal coordinate `⌈2π·earth_radius⌉·i/N`; under
periodicity of cos/sin the first and last samples coincide geometrically
(while carrying wrapped texture coordinates), and neither `update` nor
`handle_event` ever mutates the mesh. -/
theorem C8_road_mesh (m : RealFns) (cfg : Config) (envelope : Texture)
    (camFov : ℚ)
    (hcos : m.cos (2 * float_pi * (roadN : ℚ) / (roadN : ℚ)) =
      m.cos (2 * float_pi * (0 : ℚ) / (roadN : ℚ)))
    (hsin : m.sin (2 * float_pi * (roadN : ℚ) / (roadN : ℚ)) =
      m.sin (2 * float_pi * (0 : ℚ) / (roadN : ℚ))) :
    (initGame m cfg envelope camFov).road_mesh = roadMesh m cfg ∧
    (roadMesh m cfg).length = 2 * (roadN + 1) ∧
    (∀ i : ℕ, i ≤ roadN →
      (roadMesh m cfg)[2 * i]? = some
        ⟨(-cfg.road_width,
          cfg.earth_radius * m.cos (2 * float_pi * (i : ℚ) / (roadN : ℚ)),
          cfg.earth_radius * m.sin (2 * float_pi * (i : ℚ) / (roadN : ℚ))),
         (0, (⌈2 * float_pi * cfg.earth_radius⌉ : ℚ) * (i : ℚ) / (roadN : ℚ))⟩ ∧
      (roadMesh m cfg)[2 * i + 1]? = some
        ⟨(cfg.road_width,
          cfg.earth_radius * m.cos (2 * float_pi * (i : ℚ) / (roadN : ℚ)),
          cfg.earth_radius * m.sin (2 * float_pi * (i : ℚ) / (roadN : ℚ))),
         (1, (⌈2 * float_pi * cfg.earth_radius⌉ : ℚ) * (i : ℚ) / (roadN : ℚ))⟩) ∧
    (∀ v0 vN : Vertex, (roadMesh m cfg)[0]? = some v0 →
      (roadMesh m cfg)[2 * roadN]? = some vN → v0.a_pos = vN.a_pos) ∧
    (∀ v1 vN : Vertex, (roadMesh m cfg)[1]? = some v1 →
      (roadMesh m cfg)[2 * roadN + 1]? = some vN → v1.a_pos = vN.a_pos) ∧
    (∀ (fuel : ℕ) (dt : ℚ) (s : GameState),
      (update cfg fuel dt s).road_mesh = s.road_mesh) ∧
    (∀ (rotS devS wS : ℚ) (ev : Event) (s : GameState),
      (handleEvent m cfg rotS devS wS ev s).road_mesh = s.road_mesh) := by
  have hlen2 : ∀ j, (sampleVerts m cfg j).length = 2 := fun j => rfl
  have hidx : ∀ i : ℕ, i ≤ roadN →
      (roadMesh m cfg)[2 * i]? = some
        ⟨(-cfg.road_width,
          cfg.earth_radius * m.cos (2 * float_pi * (i : ℚ) / (roadN : ℚ)),
          cfg.earth_radius * m.sin (2 * float_pi * (i : ℚ) / (roadN : ℚ))),
         (0, (⌈2 * float_pi * cfg.earth_radius⌉ : ℚ) * (i : ℚ) / (roadN : ℚ))⟩ ∧
      (roadMesh m cfg)[2 * i + 1]? = some
        ⟨(cfg.road_width,
          cfg.earth_radius * m.cos (2 * float_pi * (i : ℚ) / (roadN : ℚ)),
          cfg.earth_radius * m.sin (2 * float_pi * (i : ℚ) / (roadN : ℚ))),
         (1, (⌈2 * float_pi * cfg.earth_radius⌉ : ℚ) * (i : ℚ) / (roadN : ℚ))⟩ := by
    intro i hi
    obtain ⟨ha, hb⟩ := flatMap_two_getElem? (roadN + 1) (sampleVerts m cfg)
      hlen2 i (by omega)
    rw [roadMesh, ha, hb]
    constructor <;>
      · simp only [sampleVerts, rotateVec, List.getElem?_cons_zero,
          List.getElem?_cons_succ, Option.some.injEq]
        refine congrArg₂ Vertex.mk ?_ ?_ <;>
          · refine Prod.ext ?_ ?_ <;> simp <;> ring
  refine ⟨rfl, ?_, hidx, ?_, ?_, fun _ _ _ => rfl, ?_⟩
  · rw [roadMesh]
    simp only [List.length_flatMap, Function.comp_def, hlen2]
    rw [List.map_const', List.sum_replicate, List.length_range]
    simp [mul_comm]
  · intro v0 vN h0 hN
    obtain ⟨h0', -⟩ := hidx 0 (by omega)
    obtain ⟨hN', -⟩ := hidx roadN le_rfl
    rw [show (2 : ℕ) * 0 = 0 by omega] at h0'
    rw [h0'] at h0
    rw [hN'] at hN
    cases h0; cases hN
    rw [hcos, hsin]
    norm_num
  · intro v1 vN h1 hN
    obtain ⟨-, h1'⟩ := hidx 0 (by omega)
    obtain ⟨-, hN'⟩ := hidx roadN le_rfl
    rw [show (2 : ℕ) * 0 + 1 = 1 by omega] at h1'
    rw [h1'] at h1
    rw [hN'] at hN
    cases h1; cases hN
    rw [hcos, hsin]
    norm_num
  · intro rotS devS wS ev s
    rcases ev with pos | pos | _
    · show (handleMouseDown m cfg rotS pos s).road_mesh = s.road_mesh
      rw [handleMouseDown]
      cases rposition (itemHit m cfg.hand_radius pos) s.items with
      | some i => rfl
      | none =>
        by_cases hbag :
            (s.bag_position.extend_uniform cfg.hand_radius).contains pos
        · rw [if_pos hbag]
        · rw [if_neg hbag]
    · show (handleMouseUp m cfg devS wS pos s).road_mesh = s.road_mesh
      rw [handleMouseUp]
      cases s.holding with
      | some it => rfl
      | none => rfl
    · rfl

/-- C8 witness: with the constant function table and `cfg10`, the mesh
has the required vertex count. -/
theorem C8_road_mesh_witness :
    (roadMesh constFns cfg10).length = 2 * (roadN + 1) :=
  (C8_road_mesh constFns cfg10 envTex 2 rfl rfl).2.1

end Ludum53
